import Mathlib

/-!
Shallow embedding of `src/helita/sim/rh15d_vis.py` (helita, visualisation of
RH 1.5D radiative-transfer output): the `Populations` and `SourceFunction`
jupyter viewers.

Conventions of the embedding:
* machine reals are modelled as `ℚ`;
* a raised Python exception is modelled as `none`;
* an array sliced along its depth axis is modelled as a function from the
  remaining indices to the depth profile, a `List ℚ`;
* `scipy.integrate.quadrature.cumtrapz` and `scipy.interpolate.interp1d`
  (default linear kind, default `bounds_error`) are modelled by `cumtrapz`
  and `interp1d` below; `ipywidgets` control abbreviations by `Control`;
* the externally supplied `planck` function (from `utils.utilsmath`, not in
  this module) is passed as an explicit function argument where needed.
-/

/-- `np.around(..).astype('i')` on a scalar: round half to even, as an `ℤ`. -/
def roundHalfEven (q : ℚ) : ℤ :=
  if q - ⌊q⌋ < 1/2 then ⌊q⌋
  else if 1/2 < q - ⌊q⌋ then ⌊q⌋ + 1
  else if ⌊q⌋ % 2 = 0 then ⌊q⌋ else ⌊q⌋ + 1

/-- Accumulator form of `scipy.integrate.quadrature.cumtrapz(y, x=x)`
(no `initial` point): entry `i` is the trapezoidal integral of `y` against
`x` from point `0` to point `i+1`. -/
def cumtrapzAux (acc : ℚ) : List ℚ → List ℚ → List ℚ
  | y0 :: y1 :: ys, x0 :: x1 :: xs =>
      (acc + (x1 - x0) * (y0 + y1) / 2) ::
        cumtrapzAux (acc + (x1 - x0) * (y0 + y1) / 2) (y1 :: ys) (x1 :: xs)
  | _, _ => []

/-- `scipy.integrate.quadrature.cumtrapz(y, x=x)` (length `n - 1`). -/
def cumtrapz (y x : List ℚ) : List ℚ := cumtrapzAux 0 y x

/-- Piecewise-linear interpolation over samples `(x i, y i)` with `x`
ascending; `none` models scipy's out-of-bounds `ValueError` (and its errors
on fewer than two sample points). -/
def interpAsc : List ℚ → List ℚ → ℚ → Option ℚ
  | x0 :: x1 :: xs, y0 :: y1 :: ys, t =>
      if t < x0 then none
      else if t ≤ x1 then some (y0 + (t - x0) * (y1 - y0) / (x1 - x0))
      else interpAsc (x1 :: xs) (y1 :: ys) t
  | _, _, _ => none

/-- Whether a list is non-decreasing. -/
def sortedLe : List ℚ → Bool
  | x0 :: x1 :: xs => decide (x0 ≤ x1) && sortedLe (x1 :: xs)
  | _ => true

/-- `scipy.interpolate.interp1d(x, y)(t)`: with default `assume_sorted=False`
the samples are sorted by `x` first.  This module only ever feeds `interp1d`
monotone sample abscissas, so the sort is modelled as: keep an ascending `x`,
reverse a descending one. -/
def interp1d (x y : List ℚ) (t : ℚ) : Option ℚ :=
  if sortedLe x then interpAsc x y t else interpAsc x.reverse y.reverse t

/-- An `ipywidgets` control abbreviation as used by the `interact` calls:
`fixed(v)`, a `(min, max)` tuple, or a `(min, max, step)` tuple. -/
inductive Control where
  | fixedC : ℤ → Control
  | slider : ℤ → ℤ → Control
  | sliderStep : ℤ → ℤ → ℤ → Control
deriving DecidableEq

/-- The values a control lets the user select: `fixed(v)` is not interactive
and always supplies `v`; an `IntSlider` built from `(min, max)` or
`(min, max, step)` offers `min`, `min + step`, ... up to at most `max`
(`max` inclusive). -/
def Control.mem : Control → ℤ → Bool
  | .fixedC v, w => decide (w = v)
  | .slider lo hi, w => decide (lo ≤ w) && decide (w ≤ hi)
  | .sliderStep lo hi s, w =>
      decide (lo ≤ w) && decide (w ≤ hi) && decide ((w - lo) % s = 0)

/-- One step of Python `str.title()`: an alphabetic character is uppercased
after a non-alphabetic character (or at the start) and lowercased after an
alphabetic one. -/
def pyTitleAux : Bool → List Char → List Char
  | _, [] => []
  | prev, ch :: cs =>
      (if ch.isAlpha then (if prev then ch.toLower else ch.toUpper) else ch)
        :: pyTitleAux ch.isAlpha cs

/-- Python `str.title()`. -/
def pyTitle (s : String) : String := ⟨pyTitleAux false s.data⟩

/-- Helper of `pySplit`: split a character list at a separator. -/
def splitOnCharAux (c : Char) : List Char → List Char → List (List Char)
  | [], acc => [acc.reverse]
  | d :: ds, acc =>
      if d = c then acc.reverse :: splitOnCharAux c ds []
      else splitOnCharAux c ds (d :: acc)

/-- Python `str.split(c)` for a one-character separator. -/
def pySplit (c : Char) (s : String) : List String :=
  (splitOnCharAux c s.data []).map (fun l => ⟨l⟩)

/-- Python `a[:5] == 'atom_'`. -/
def startsWithAtom (a : String) : Bool := a.data.take 5 == "atom_".data

/-- Left-pad a natural below 1000 to three digits. -/
def natPad3 (n : ℕ) : String :=
  if n < 10 then "00" ++ toString n
  else if n < 100 then "0" ++ toString n
  else toString n

/-- Python `"%.3f" % q`: fixed-point with three decimals, ties to even. -/
def format3f (q : ℚ) : String :=
  let m := roundHalfEven (q * 1000)
  (if m < 0 then "-" else "") ++
    toString (m.natAbs / 1000) ++ "." ++ natPad3 (m.natAbs % 1000)

/-- One `atom_<species>` sub-object of the result object: `nlevel` plus the
`populations` and `populations_LTE` arrays, indexed `[level, x, y]` with the
depth profile as value. -/
structure Atom where
  nlevel : ℕ
  populations : ℕ → ℕ → ℕ → List ℚ
  populations_LTE : ℕ → ℕ → ℕ → List ℚ

/-- The `atmos` sub-object: `shape` is the `(NX, NY, NZ)` shape of
`temperature`; `temperature` and `height_scale` are indexed `[x, y]` with the
depth profile as value. -/
structure Atmos where
  shape : ℕ × ℕ × ℕ
  temperature : ℕ → ℕ → List ℚ
  height_scale : ℕ → ℕ → List ℚ

/-- The `ray` sub-object: `shape` is the `(NX, NY, NZ, NWAVE)` shape of
`source_function`; the arrays are indexed `[x, y, wave]` with the depth
profile as value; `wavelength_selected` is 1-D. -/
structure Ray where
  shape : ℕ × ℕ × ℕ × ℕ
  source_function : ℕ → ℕ → ℕ → List ℚ
  Jlambda : ℕ → ℕ → ℕ → List ℚ
  chi : ℕ → ℕ → ℕ → List ℚ
  wavelength_selected : ℕ → ℚ

/-- The duck-typed result object: `attrs` models `dir(rh_object)` (sorted by
Python), `atom` models `getattr` for the per-species sub-objects. -/
structure RhObj where
  attrs : List String
  atom : String → Atom
  atmos : Atmos
  ray : Ray

namespace Populations

/-- `Populations.__init__` line 16: `[a for a in dir(self.rhobj) if a[:5] == 'atom_']`. -/
def atoms (r : RhObj) : List String := r.attrs.filter startsWithAtom

/-- `display` line 24: `{a.split('_')[1].title(): a for a in self.atoms}`,
as a label-to-attribute association list. -/
def ATOMS (r : RhObj) : List (String × String) :=
  (atoms r).map (fun a => (pyTitle ((pySplit '_' a).getD 1 ""), a))

/-- `display` line 25. -/
def QUANTS : List String := ["Populations", "LTE Populations", "Departure coefficients"]

/-- `display` lines 28-31: `fixed(0)` if `NX == 1` else the tuple `(0, NX - 1)`,
with `NX` from `atmos.temperature.shape`. -/
def xslider (r : RhObj) : Control :=
  if r.atmos.shape.1 = 1 then .fixedC 0 else .slider 0 ((r.atmos.shape.1 : ℤ) - 1)

/-- `display` lines 32-35: `fixed(0)` if `NY == 1` else `(0, NY - 1)`.
This local is computed but never used by the `interact` call. -/
def yslider (r : RhObj) : Control :=
  if r.atmos.shape.2.1 = 1 then .fixedC 0 else .slider 0 ((r.atmos.shape.2.1 : ℤ) - 1)

/-- Line 51: the `interact` call binds `x=xslider`. -/
def controlX (r : RhObj) : Control := xslider r

/-- Line 51: the `interact` call binds `y=xslider` (sic, not `yslider`). -/
def controlY (r : RhObj) : Control := xslider r

/-- Line 56: the nested `interact(level=(1, NLEVEL))` control, with
`NLEVEL = getattr(self.rhobj, atom).nlevel` recomputed for the selected atom. -/
def levelControl (r : RhObj) (a : String) : Control :=
  .slider 1 ((r.atom a).nlevel : ℤ)

/-- The mutable plot artifacts of the populations figure that
`_pop_update_level` touches (plus `xdata`, set once at initialisation). -/
structure PlotState where
  xdata : List ℚ
  ydata : List ℚ
  ylabel : String
  title : String
  yscale : String
deriving DecidableEq

/-- `display._pop_update._pop_update_level` lines 57-76: select the requested
quantity for the selected level and column, replace the curve's y-data, set
label, title and y-scale.  An unknown quantity string would raise
(`tmp` unbound), modelled as `none`; the dropdown only supplies `QUANTS`. -/
def pop_update_level (r : RhObj) (a quantity : String) (y_log : Bool)
    (x y level : ℕ) (st : PlotState) : Option PlotState :=
  let n := (r.atom a).populations (level - 1) x y
  let nstar := (r.atom a).populations_LTE (level - 1) x y
  let newTitle :=
    "Level " ++ toString level ++ ", x=" ++ toString x ++ ", y=" ++ toString y
  let newScale := if y_log then "log" else "linear"
  if quantity = "Departure coefficients" then
    some { st with ydata := List.zipWith (· / ·) n nstar,
                   ylabel := quantity ++ " (n / n*)",
                   title := newTitle, yscale := newScale }
  else if quantity = "Populations" then
    some { st with ydata := n, ylabel := quantity ++ " (m$^{-3}$)",
                   title := newTitle, yscale := newScale }
  else if quantity = "LTE Populations" then
    some { st with ydata := nstar, ylabel := quantity ++ " (m$^{-3}$)",
                   title := newTitle, yscale := newScale }
  else none

end Populations

namespace SourceFunction

/-- `display` line 98. -/
def TAU_LEVELS : List ℚ := [3/10, 1, 3]

/-- `display` lines 90-93, with `NX` from `ray.source_function.shape`. -/
def xslider (r : RhObj) : Control :=
  if r.ray.shape.1 = 1 then .fixedC 0 else .slider 0 ((r.ray.shape.1 : ℤ) - 1)

/-- `display` lines 94-97; computed but never used by the `interact` call. -/
def yslider (r : RhObj) : Control :=
  if r.ray.shape.2.1 = 1 then .fixedC 0 else .slider 0 ((r.ray.shape.2.1 : ℤ) - 1)

/-- Line 146: the `interact` call binds `x=xslider`. -/
def controlX (r : RhObj) : Control := xslider r

/-- Line 146: the `interact` call binds `y=xslider` (sic, not `yslider`). -/
def controlY (r : RhObj) : Control := xslider r

/-- Line 145: `wavelength=(0, NWAVE, 1)` with `NWAVE` from
`ray.source_function.shape`. -/
def controlWavelength (r : RhObj) : Control :=
  .sliderStep 0 (r.ray.shape.2.2.2 : ℤ) 1

/-- `display.__get_tau_levels` lines 102-112:
`tau = cumtrapz(chi[x, y, :, wave], x=-h)`;
`tau = interp1d(tau, h[1:])(TAU_LEVELS)`;
`idx = np.around(interp1d(h, np.arange(h.shape[0]))(tau)).astype('i')`;
`return (tau / 1e6, idx)`. -/
def get_tau_levels (r : RhObj) (x y wave : ℕ) : Option (List ℚ × List ℤ) :=
  let h := r.atmos.height_scale x y
  let tau := cumtrapz (r.ray.chi x y wave) (h.map (fun v => -v))
  match TAU_LEVELS.mapM (fun l => interp1d tau (h.drop 1) l) with
  | none => none
  | some hts =>
      match hts.mapM
          (fun t => interp1d h ((List.range h.length).map (fun (i : ℕ) => (i : ℚ))) t) with
      | none => none
      | some raw => some (hts.map (fun v => v / 1000000), raw.map roundHalfEven)

/-- Follows the spec's words for the optical-depth locator: cumulative optical
depth at inner grid point `i + 1` is the trapezoidal integral of chi against
`-h` from the outermost point (optical depth zero at the outer boundary),
written as an explicit sum; each reference level's crossing height comes from
1D interpolation of the optical-depth-vs-height relation; that height is
mapped to the nearest grid index by a second interpolation (height to index)
plus rounding; the crossing heights are returned divided by `10^6` together
with the integer indices. -/
def get_tau_levels_spec (r : RhObj) (x y wave : ℕ) : Option (List ℚ × List ℤ) :=
  let chi := r.ray.chi x y wave
  let h := r.atmos.height_scale x y
  let tau := (List.range (h.length - 1)).map (fun i =>
    ∑ k in Finset.range (i + 1),
      ((-(h.getD (k + 1) 0)) - (-(h.getD k 0))) * (chi.getD k 0 + chi.getD (k + 1) 0) / 2)
  match TAU_LEVELS.mapM (fun l => interp1d tau (h.drop 1) l) with
  | none => none
  | some hts =>
      match hts.mapM
          (fun t => interp1d h ((List.range h.length).map (fun (i : ℕ) => (i : ℚ))) t) with
      | none => none
      | some raw => some (hts.map (fun v => v / 1000000), raw.map roundHalfEven)

/-- The mutable plot artifacts of the source-function figure that `_sf_update`
touches: the three curves' y-data, the annotation texts (set at
initialisation, untouched by updates), their anchor points `xy` and text
positions, the title and the y-scale. -/
structure PlotState where
  lines : List (List ℚ)
  annText : List String
  annXY : List (ℚ × ℚ)
  annPos : List (ℚ × ℚ)
  title : String
  yscale : String
deriving DecidableEq

/-- `display._sf_update` lines 147-167: recompute the Planck curve, replace the
three curves' y-data, set the title, reposition the three annotations from
`__get_tau_levels` (text offset divisor `0.2 - 0.03*i`), set the y-scale.
`pl` is the external `planck` function (wavelength, temperature profile). -/
def sf_update (r : RhObj) (pl : ℚ → List ℚ → List ℚ) (wavelength : ℕ)
    (y_log : Bool) (x y : ℕ) (st : PlotState) : Option PlotState :=
  let bplanck := pl (r.ray.wavelength_selected wavelength) (r.atmos.temperature x y)
  let quants := [r.ray.source_function x y wavelength,
                 r.ray.Jlambda x y wavelength, bplanck]
  match get_tau_levels r x y wavelength with
  | none => none
  | some (tau_v, h_idx) =>
      some { st with
        lines := quants,
        title := format3f (r.ray.wavelength_selected wavelength) ++ " nm",
        annXY := (List.range TAU_LEVELS.length).map (fun i =>
          (tau_v.getD i 0,
           (r.ray.source_function x y wavelength).getD (h_idx.getD i 0).toNat 0)),
        annPos := (List.range TAU_LEVELS.length).map (fun i =>
          (tau_v.getD i 0,
           ((r.ray.source_function x y wavelength).getD (h_idx.getD i 0).toNat 0)
             / (2/10 - 3/100 * (i : ℚ)))),
        yscale := if y_log then "log" else "linear" }

end SourceFunction

/-- An atom sub-object with trivial data. -/
def trivAtom : Atom := ⟨1, fun _ _ _ => [], fun _ _ _ => []⟩

/-- A result object with the given array shapes and trivial data, for
exercising the control-construction code. -/
def shapeObj (NX NY NZ NWAVE : ℕ) : RhObj where
  attrs := []
  atom := fun _ => trivAtom
  atmos := ⟨(NX, NY, NZ), fun _ _ => [], fun _ _ => []⟩
  ray := ⟨(NX, NY, NZ, NWAVE), fun _ _ _ => [], fun _ _ _ => [],
          fun _ _ _ => [], fun _ => 0⟩

/-- A uniform height grid of `N` points from `H` (outermost) down to `0`
(innermost): point `j` is at height `H - j*H/(N-1)`. -/
def uniformGrid (N : ℕ) (H : ℚ) : List ℚ :=
  (List.range N).map (fun (j : ℕ) => H - (j : ℚ) * H / ((N : ℚ) - 1))

/-- A result object whose absorption coefficient is the constant `c` over the
uniform height grid `uniformGrid N H`. -/
def constChiObj (c H : ℚ) (N : ℕ) : RhObj where
  attrs := []
  atom := fun _ => trivAtom
  atmos := ⟨(1, 1, N), fun _ _ => List.replicate N 0, fun _ _ => uniformGrid N H⟩
  ray := ⟨(1, 1, N, 1), fun _ _ _ => List.replicate N 0,
          fun _ _ _ => List.replicate N 0, fun _ _ _ => List.replicate N c,
          fun _ => 0⟩

/-- `j` is a nearest grid index to height `hstar` on the uniform `N`-point
grid spanning `H` down to `0`. -/
def isNearest (N : ℕ) (H : ℚ) (hstar : ℚ) (j : ℤ) : Prop :=
  0 ≤ j ∧ j < (N : ℤ) ∧
    ∀ k : ℕ, k < N →
      |H - (j : ℚ) * H / ((N : ℚ) - 1) - hstar| ≤
        |H - (k : ℚ) * H / ((N : ℚ) - 1) - hstar|

/-- A calcium-like atom with five levels and small concrete data. -/
def caAtom : Atom :=
  ⟨5, fun l x y => [(l : ℚ) + x + y + 1, (l : ℚ) + 2],
      fun l x y => [(l : ℚ) + x + y + 2, (l : ℚ) + 4]⟩

/-- A hydrogen-like atom with two levels. -/
def hAtom : Atom := ⟨2, fun _ _ _ => [1, 1], fun _ _ _ => [2, 2]⟩

/-- The end-to-end scenario result object: attributes `atom_CA` (5 levels) and
`atom_H`, spatial grid of size 1 along x and y. -/
def c9Obj : RhObj where
  attrs := ["atmos", "atom_CA", "atom_H", "ray"]
  atom := fun s =>
    if s = "atom_CA" then caAtom else if s = "atom_H" then hAtom else trivAtom
  atmos := ⟨(1, 1, 4), fun _ _ => List.replicate 4 0, fun _ _ => List.replicate 4 0⟩
  ray := ⟨(1, 1, 4, 1), fun _ _ _ => [], fun _ _ _ => [], fun _ _ _ => [],
          fun _ => 0⟩

/-- A populations plot state with trivial contents. -/
def demoPopState : Populations.PlotState := ⟨[], [], "", "", ""⟩

/-- A source-function plot state with trivial contents. -/
def demoSFState : SourceFunction.PlotState := ⟨[], ["a", "b", "c"], [], [], "", ""⟩

/-- A three-point column on which the optical-depth locator succeeds:
heights `[2, 1, 0]`, chi `[3/10, 3/10, 77/10]`, so the cumulative optical
depths are `[3/10, 43/10]`, bracketing all three reference levels. -/
def tinyObj : RhObj where
  attrs := []
  atom := fun _ => trivAtom
  atmos := ⟨(1, 1, 3), fun _ _ => [6, 5, 4], fun _ _ => [2, 1, 0]⟩
  ray := ⟨(1, 1, 3, 1), fun _ _ _ => [9, 8, 7], fun _ _ _ => [3, 2, 1],
          fun _ _ _ => [3/10, 3/10, 77/10], fun _ => 0⟩

/-! ## Theorems -/

/-- C1: the claim's y-axis binding fails on the code.  Both `interact` calls
pass `y=xslider`, so with shapes `NX = 3, NY = 1` the y control of both
viewers is the interactive range `(0, 2)` taken from the x axis — although
the y axis has size 1 and the per-axis `yslider` local (computed but unused)
is `fixed(0)`. -/
theorem y_control_bound_to_x_axis :
    Populations.controlY (shapeObj 3 1 5 4) = Control.slider 0 2
    ∧ Populations.yslider (shapeObj 3 1 5 4) = Control.fixedC 0
    ∧ SourceFunction.controlY (shapeObj 3 1 5 4) = Control.slider 0 2
    ∧ SourceFunction.yslider (shapeObj 3 1 5 4) = Control.fixedC 0 := by
  refine ⟨?_, ?_, ?_, ?_⟩ <;> decide

/-- C2: the SourceFunction wavelength control is built from the tuple
`(0, NWAVE, 1)`, so with `NWAVE = 4` the out-of-range index `4` is
selectable (valid wavelength indices are `0..3`). -/
theorem wavelength_control_exceeds_range :
    (SourceFunction.controlWavelength (shapeObj 1 1 5 4)).mem 4 = true
    ∧ ¬ ((4 : ℕ) < (shapeObj 1 1 5 4).ray.shape.2.2.2) := by
  refine ⟨?_, ?_⟩ <;> decide

/-- C5: for any species, the level control is the range `[1, nlevel]`, and
selecting level `k` reads the populations, LTE populations, or departure
coefficients from the underlying arrays at level index `k - 1`. -/
theorem level_control_range_and_slice (r : RhObj) (a : String) (k x y : ℕ)
    (ylog : Bool) (st : Populations.PlotState)
    (hk1 : 1 ≤ k) (hk2 : k ≤ (r.atom a).nlevel) :
    (∀ v : ℤ, (Populations.levelControl r a).mem v = true ↔
        1 ≤ v ∧ v ≤ ((r.atom a).nlevel : ℤ))
    ∧ Option.map Populations.PlotState.ydata
        (Populations.pop_update_level r a "Populations" ylog x y k st)
        = some ((r.atom a).populations (k - 1) x y)
    ∧ Option.map Populations.PlotState.ydata
        (Populations.pop_update_level r a "LTE Populations" ylog x y k st)
        = some ((r.atom a).populations_LTE (k - 1) x y)
    ∧ Option.map Populations.PlotState.ydata
        (Populations.pop_update_level r a "Departure coefficients" ylog x y k st)
        = some (List.zipWith (· / ·) ((r.atom a).populations (k - 1) x y)
            ((r.atom a).populations_LTE (k - 1) x y)) := by
  refine ⟨?_, ?_, ?_, ?_⟩
  · intro v
    simp [Populations.levelControl, Control.mem]
  · simp [Populations.pop_update_level]
  · simp [Populations.pop_update_level]
  · simp [Populations.pop_update_level]

/-- Witness for C5 at the concrete scenario object, species `atom_CA`,
level 1. -/
theorem level_control_range_and_slice_witness :
    (1 ≤ 1 ∧ 1 ≤ (c9Obj.atom "atom_CA").nlevel)
    ∧ ((∀ v : ℤ, (Populations.levelControl c9Obj "atom_CA").mem v = true ↔
          1 ≤ v ∧ v ≤ ((c9Obj.atom "atom_CA").nlevel : ℤ))
      ∧ Option.map Populations.PlotState.ydata
          (Populations.pop_update_level c9Obj "atom_CA" "Populations" false 0 0 1 demoPopState)
          = some ((c9Obj.atom "atom_CA").populations 0 0 0)
      ∧ Option.map Populations.PlotState.ydata
          (Populations.pop_update_level c9Obj "atom_CA" "LTE Populations" false 0 0 1 demoPopState)
          = some ((c9Obj.atom "atom_CA").populations_LTE 0 0 0)
      ∧ Option.map Populations.PlotState.ydata
          (Populations.pop_update_level c9Obj "atom_CA" "Departure coefficients" false 0 0 1 demoPopState)
          = some (List.zipWith (· / ·) ((c9Obj.atom "atom_CA").populations 0 0 0)
              ((c9Obj.atom "atom_CA").populations_LTE 0 0 0))) :=
  ⟨⟨by decide, by decide⟩,
    level_control_range_and_slice c9Obj "atom_CA" 1 0 0 false demoPopState
      (by decide) (by decide)⟩

/-- C6: with the quantity `Departure coefficients` selected, the update
replaces the curve's y-data by the exact elementwise quotient of the
populations and LTE-populations slices and touches nothing else but label,
title and y-scale. -/
theorem departure_coefficients_elementwise (r : RhObj) (a : String)
    (k x y : ℕ) (ylog : Bool) (st : Populations.PlotState) :
    Populations.pop_update_level r a "Departure coefficients" ylog x y k st
      = some { st with
          ydata := List.zipWith (· / ·) ((r.atom a).populations (k - 1) x y)
            ((r.atom a).populations_LTE (k - 1) x y),
          ylabel := "Departure coefficients" ++ " (n / n*)",
          title := "Level " ++ toString k ++ ", x=" ++ toString x ++ ", y=" ++ toString y,
          yscale := if ylog then "log" else "linear" } := by
  simp [Populations.pop_update_level]

/-- C9: on the end-to-end scenario object (attributes `atom_CA` with 5
levels and `atom_H`, spatial grid `1 × 1`), the populations viewer discovers
exactly the two species by the `atom_` prefix, fixes both spatial controls
at index 0, maps the dropdown labels `Ca` and `H` to the attribute names,
and bounds the level control to `[1, 5]` for the `Ca` selection. -/
theorem populations_end_to_end :
    Populations.atoms c9Obj = ["atom_CA", "atom_H"]
    ∧ Populations.controlX c9Obj = Control.fixedC 0
    ∧ Populations.controlY c9Obj = Control.fixedC 0
    ∧ Populations.ATOMS c9Obj = [("Ca", "atom_CA"), ("H", "atom_H")]
    ∧ Populations.levelControl c9Obj "atom_CA" = Control.slider 1 5 := by
  refine ⟨?_, ?_, ?_, ?_, ?_⟩ <;> decide

/-- C7: re-running either update callback with only the log flag flipped
yields the same curve data, labels and title; only the y-scale attribute
differs, becoming `log` when the flag is set and `linear` otherwise. -/
theorem log_toggle_changes_only_yscale (r : RhObj) (a quantity : String)
    (x y level : ℕ) (pl : ℚ → List ℚ → List ℚ) (w : ℕ)
    (stp : Populations.PlotState) (sts : SourceFunction.PlotState) :
    (Option.map Populations.PlotState.ydata
        (Populations.pop_update_level r a quantity true x y level stp)
      = Option.map Populations.PlotState.ydata
        (Populations.pop_update_level r a quantity false x y level stp))
    ∧ (Option.map Populations.PlotState.title
        (Populations.pop_update_level r a quantity true x y level stp)
      = Option.map Populations.PlotState.title
        (Populations.pop_update_level r a quantity false x y level stp))
    ∧ (Option.map Populations.PlotState.ylabel
        (Populations.pop_update_level r a quantity true x y level stp)
      = Option.map Populations.PlotState.ylabel
        (Populations.pop_update_level r a quantity false x y level stp))
    ∧ (Option.map Populations.PlotState.yscale
        (Populations.pop_update_level r a quantity true x y level stp)
      = Option.map (fun _ => "log")
        (Populations.pop_update_level r a quantity true x y level stp))
    ∧ (Option.map Populations.PlotState.yscale
        (Populations.pop_update_level r a quantity false x y level stp)
      = Option.map (fun _ => "linear")
        (Populations.pop_update_level r a quantity false x y level stp))
    ∧ (Option.map SourceFunction.PlotState.lines
        (SourceFunction.sf_update r pl w true x y sts)
      = Option.map SourceFunction.PlotState.lines
        (SourceFunction.sf_update r pl w false x y sts))
    ∧ (Option.map SourceFunction.PlotState.title
        (SourceFunction.sf_update r pl w true x y sts)
      = Option.map SourceFunction.PlotState.title
        (SourceFunction.sf_update r pl w false x y sts))
    ∧ (Option.map SourceFunction.PlotState.annText
        (SourceFunction.sf_update r pl w true x y sts)
      = Option.map SourceFunction.PlotState.annText
        (SourceFunction.sf_update r pl w false x y sts))
    ∧ (Option.map SourceFunction.PlotState.annXY
        (SourceFunction.sf_update r pl w true x y sts)
      = Option.map SourceFunction.PlotState.annXY
        (SourceFunction.sf_update r pl w false x y sts))
    ∧ (Option.map SourceFunction.PlotState.annPos
        (SourceFunction.sf_update r pl w true x y sts)
      = Option.map SourceFunction.PlotState.annPos
        (SourceFunction.sf_update r pl w false x y sts))
    ∧ (Option.map SourceFunction.PlotState.yscale
        (SourceFunction.sf_update r pl w true x y sts)
      = Option.map (fun _ => "log")
        (SourceFunction.sf_update r pl w true x y sts))
    ∧ (Option.map SourceFunction.PlotState.yscale
        (SourceFunction.sf_update r pl w false x y sts)
      = Option.map (fun _ => "linear")
        (SourceFunction.sf_update r pl w false x y sts)) := by
  refine ⟨?_, ?_, ?_, ?_, ?_, ?_, ?_, ?_, ?_, ?_, ?_, ?_⟩ <;>
    simp only [Populations.pop_update_level, SourceFunction.sf_update] <;>
    cases SourceFunction.get_tau_levels r x y w <;>
    split_ifs <;> simp_all

/-- C8: whenever the optical-depth locator succeeds at the selected column
`(x, y)` and wavelength, `_sf_update` replaces the three curves by the source
function, mean intensity and Planck data of exactly that column, repositions
the three annotations from the locator's output for that column, sets the
title from the selected wavelength, and keeps the annotation texts; the
other spatial selection enters only as the unchanged `y` (resp. `x`)
argument. -/
theorem sf_update_new_column (r : RhObj) (pl : ℚ → List ℚ → List ℚ)
    (w : ℕ) (ylog : Bool) (x y : ℕ) (st : SourceFunction.PlotState)
    (tv : List ℚ) (hi : List ℤ)
    (h : SourceFunction.get_tau_levels r x y w = some (tv, hi)) :
    SourceFunction.sf_update r pl w ylog x y st
      = some { lines := [r.ray.source_function x y w, r.ray.Jlambda x y w,
                 pl (r.ray.wavelength_selected w) (r.atmos.temperature x y)],
               annText := st.annText,
               annXY := (List.range 3).map (fun i =>
                 (tv.getD i 0,
                  (r.ray.source_function x y w).getD (hi.getD i 0).toNat 0)),
               annPos := (List.range 3).map (fun i =>
                 (tv.getD i 0,
                  ((r.ray.source_function x y w).getD (hi.getD i 0).toNat 0)
                    / (2/10 - 3/100 * (i : ℚ)))),
               title := format3f (r.ray.wavelength_selected w) ++ " nm",
               yscale := if ylog then "log" else "linear" } := by
  simp only [SourceFunction.sf_update, h, SourceFunction.TAU_LEVELS,
    List.length_cons, List.length_nil]

/-- Witness for C8 at the concrete three-point column object. -/
theorem sf_update_new_column_witness :
    (SourceFunction.get_tau_levels tinyObj 0 0 0
      = some ([1/1000000, 33/40000000, 13/40000000], [1, 1, 2]))
    ∧ SourceFunction.sf_update tinyObj (fun _ t => t) 0 true 0 0 demoSFState
      = some { lines := [tinyObj.ray.source_function 0 0 0, tinyObj.ray.Jlambda 0 0 0,
                 (fun (_ : ℚ) (t : List ℚ) => t) (tinyObj.ray.wavelength_selected 0)
                   (tinyObj.atmos.temperature 0 0)],
               annText := demoSFState.annText,
               annXY := (List.range 3).map (fun i =>
                 (([1/1000000, 33/40000000, 13/40000000] : List ℚ).getD i 0,
                  (tinyObj.ray.source_function 0 0 0).getD
                    (([1, 1, 2] : List ℤ).getD i 0).toNat 0)),
               annPos := (List.range 3).map (fun i =>
                 (([1/1000000, 33/40000000, 13/40000000] : List ℚ).getD i 0,
                  ((tinyObj.ray.source_function 0 0 0).getD
                      (([1, 1, 2] : List ℤ).getD i 0).toNat 0)
                    / (2/10 - 3/100 * (i : ℚ)))),
               title := format3f (tinyObj.ray.wavelength_selected 0) ++ " nm",
               yscale := if true then "log" else "linear" } :=
  have h : SourceFunction.get_tau_levels tinyObj 0 0 0
      = some ([1/1000000, 33/40000000, 13/40000000], [1, 1, 2]) := by
    norm_num [SourceFunction.get_tau_levels, SourceFunction.TAU_LEVELS, tinyObj,
      List.range_succ, cumtrapz, cumtrapzAux, interp1d, interpAsc, sortedLe,
      List.mapM, List.mapM.loop, roundHalfEven]
  ⟨h, sf_update_new_column tinyObj (fun _ t => t) 0 true 0 0 demoSFState
    [1/1000000, 33/40000000, 13/40000000] [1, 1, 2] h⟩

/-- `List.getD` commutes with elementwise negation (default `0`). -/
theorem getD_map_neg (l : List ℚ) (k : ℕ) :
    (l.map (fun v => -v)).getD k 0 = -(l.getD k 0) := by
  simp only [List.getD_eq_getElem?_getD, List.getElem?_map]
  cases l[k]? <;> simp

/-- `cumtrapzAux` written as explicit partial trapezoid sums. -/
theorem cumtrapzAux_eq_map_sum (ys : List ℚ) :
    ∀ (xs : List ℚ) (acc : ℚ),
      cumtrapzAux acc ys xs = (List.range (min ys.length xs.length - 1)).map
        (fun i => acc + ∑ k in Finset.range (i + 1),
          (xs.getD (k + 1) 0 - xs.getD k 0) * (ys.getD k 0 + ys.getD (k + 1) 0) / 2) := by
  induction ys with
  | nil => intro xs acc; simp [cumtrapzAux]
  | cons y0 ys ih =>
    cases ys with
    | nil => intro xs acc; cases xs <;> simp [cumtrapzAux]
    | cons y1 ys' =>
      intro xs acc
      cases xs with
      | nil => simp [cumtrapzAux]
      | cons x0 xs' =>
        cases xs' with
        | nil => simp [cumtrapzAux]
        | cons x1 xs'' =>
          rw [cumtrapzAux, ih (x1 :: xs'')]
          have hmin : min (y0 :: y1 :: ys').length (x0 :: x1 :: xs'').length - 1
              = min (y1 :: ys').length (x1 :: xs'').length - 1 + 1 := by
            simp only [List.length_cons]
            omega
          rw [hmin, List.range_succ_eq_map, List.map_cons, List.map_map]
          congr 1
          · simp [Finset.sum_range_one]
          · refine List.map_congr_left (fun i _ => ?_)
            simp only [Function.comp_apply]
            rw [Finset.sum_range_succ' (fun k =>
              ((x0 :: x1 :: xs'').getD (k + 1) 0 - (x0 :: x1 :: xs'').getD k 0)
                * ((y0 :: y1 :: ys').getD k 0 + (y0 :: y1 :: ys').getD (k + 1) 0) / 2) (i + 1)]
            simp only [List.getD_cons_succ, List.getD_cons_zero]
            ring

/-- C3: the optical-depth locator agrees with the spec's description
(`get_tau_levels_spec`) on every well-formed column (chi and height profiles
of equal length). -/
theorem get_tau_levels_matches_spec (r : RhObj) (x y wave : ℕ)
    (hlen : (r.ray.chi x y wave).length = (r.atmos.height_scale x y).length) :
    SourceFunction.get_tau_levels r x y wave
      = SourceFunction.get_tau_levels_spec r x y wave := by
  have htau : cumtrapz (r.ray.chi x y wave)
      ((r.atmos.height_scale x y).map (fun v => -v))
      = (List.range ((r.atmos.height_scale x y).length - 1)).map (fun i =>
          ∑ k in Finset.range (i + 1),
            ((-((r.atmos.height_scale x y).getD (k + 1) 0))
                - (-((r.atmos.height_scale x y).getD k 0)))
              * ((r.ray.chi x y wave).getD k 0
                  + (r.ray.chi x y wave).getD (k + 1) 0) / 2) := by
    rw [cumtrapz, cumtrapzAux_eq_map_sum]
    rw [List.length_map, hlen, min_self]
    refine List.map_congr_left (fun i _ => ?_)
    rw [zero_add]
    refine Finset.sum_congr rfl (fun k _ => ?_)
    rw [getD_map_neg, getD_map_neg]
  simp only [SourceFunction.get_tau_levels, SourceFunction.get_tau_levels_spec]
  rw [htau]

/-- Witness for C3 at the concrete three-point column object. -/
theorem get_tau_levels_matches_spec_witness :
    ((tinyObj.ray.chi 0 0 0).length = (tinyObj.atmos.height_scale 0 0).length)
    ∧ SourceFunction.get_tau_levels tinyObj 0 0 0
        = SourceFunction.get_tau_levels_spec tinyObj 0 0 0 :=
  ⟨by simp [tinyObj],
   get_tau_levels_matches_spec tinyObj 0 0 0 (by simp [tinyObj])⟩

/-- `interpAsc` is out of bounds below every sample abscissa. -/
theorem interpAsc_none_low (t : ℚ) :
    ∀ (xs ys : List ℚ), (∀ u ∈ xs, t < u) → interpAsc xs ys t = none := by
  intro xs
  induction xs with
  | nil => intro ys _; cases ys <;> rfl
  | cons x0 xs ih =>
    intro ys hlt
    cases xs with
    | nil => cases ys <;> rfl
    | cons x1 xs' =>
      cases ys with
      | nil => rfl
      | cons y0 ys' =>
        cases ys' with
        | nil => rfl
        | cons y1 ys'' =>
          rw [interpAsc, if_pos (hlt x0 (by simp))]

/-- `interpAsc` is out of bounds above every sample abscissa. -/
theorem interpAsc_none_high (t : ℚ) :
    ∀ (xs ys : List ℚ), (∀ u ∈ xs, u < t) → interpAsc xs ys t = none := by
  intro xs
  induction xs with
  | nil => intro ys _; cases ys <;> rfl
  | cons x0 xs ih =>
    intro ys hlt
    cases xs with
    | nil => cases ys <;> rfl
    | cons x1 xs' =>
      cases ys with
      | nil => rfl
      | cons y0 ys' =>
        cases ys' with
        | nil => rfl
        | cons y1 ys'' =>
          rw [interpAsc, if_neg (by push_neg; exact (hlt x0 (by simp)).le),
            if_neg (by push_neg; exact hlt x1 (by simp))]
          exact ih (y1 :: ys'') (fun u hu => hlt u (List.mem_cons_of_mem _ hu))

/-- In a `(· ≤ ·)`-chained list every element is at most `getLastD`. -/
theorem le_getLastD_of_chain :
    ∀ (l : List ℚ), List.Chain' (· ≤ ·) l → ∀ u ∈ l, u ≤ l.getLastD 0
  | [], _, u, hu => by cases hu
  | [a], _, u, hu => by
      rcases List.mem_singleton.1 hu with rfl
      simp
  | a :: b :: l, hch, u, hu => by
      rcases List.chain'_cons.1 hch with ⟨hab, hch'⟩
      have htail := le_getLastD_of_chain (b :: l) hch'
      rcases List.mem_cons.1 hu with rfl | hu'
      · calc u ≤ b := hab
          _ ≤ (b :: l).getLastD 0 := htail b (by simp)
          _ = (u :: b :: l).getLastD 0 := by simp [List.getLastD_cons]
      · calc u ≤ (b :: l).getLastD 0 := htail u hu'
          _ = (a :: b :: l).getLastD 0 := by simp [List.getLastD_cons]

/-- In a `(· ≤ ·)`-chained list every element is at least `getD 0`. -/
theorem getD_zero_le_of_chain (l : List ℚ) (hch : List.Chain' (· ≤ ·) l) :
    ∀ u ∈ l, l.getD 0 0 ≤ u := by
  cases l with
  | nil => intro u hu; cases hu
  | cons a l' =>
    intro u hu
    rcases List.mem_cons.1 hu with rfl | hu'
    · simp
    · simpa using List.rel_of_sorted_cons
        ((List.chain'_iff_pairwise).1 hch) u hu'

/-- `sortedLe` decides the `(· ≤ ·)` chain condition. -/
theorem sortedLe_iff_chain :
    ∀ l : List ℚ, sortedLe l = true ↔ List.Chain' (· ≤ ·) l
  | [] => by simp [sortedLe]
  | [a] => by simp [sortedLe]
  | a :: b :: l => by
      rw [sortedLe, Bool.and_eq_true, decide_eq_true_eq, List.chain'_cons,
        sortedLe_iff_chain (b :: l)]

/-- C10: on any column whose cumulative optical depths are sorted but fail to
bracket the reference levels — the first computed value exceeds `0.3` or the
innermost value is below `3` — the locator raises an out-of-bounds
interpolation error (modelled as `none`) instead of extrapolating. -/
theorem tau_out_of_bracket_errors (r : RhObj) (x y wave : ℕ)
    (hmono : List.Chain' (· ≤ ·)
      (cumtrapz (r.ray.chi x y wave)
        ((r.atmos.height_scale x y).map (fun v => -v))))
    (hfail : 3/10 < (cumtrapz (r.ray.chi x y wave)
          ((r.atmos.height_scale x y).map (fun v => -v))).getD 0 0
      ∨ (cumtrapz (r.ray.chi x y wave)
          ((r.atmos.height_scale x y).map (fun v => -v))).getLastD 0 < 3) :
    SourceFunction.get_tau_levels r x y wave = none := by
  set tl := cumtrapz (r.ray.chi x y wave)
    ((r.atmos.height_scale x y).map (fun v => -v)) with htl
  simp only [SourceFunction.get_tau_levels, SourceFunction.TAU_LEVELS, ← htl]
  have hint : ∀ s : List ℚ, interp1d tl s (3/10) = none ∨ interp1d tl s 3 = none := by
    intro s
    rcases hfail with hlow | hhigh
    · left
      rw [interp1d, if_pos ((sortedLe_iff_chain tl).2 hmono)]
      exact interpAsc_none_low (3/10) tl s
        (fun u hu => lt_of_lt_of_le hlow (getD_zero_le_of_chain tl hmono u hu))
    · right
      rw [interp1d, if_pos ((sortedLe_iff_chain tl).2 hmono)]
      exact interpAsc_none_high 3 tl s
        (fun u hu => lt_of_le_of_lt (le_getLastD_of_chain tl hmono u hu) hhigh)
  rcases hint ((r.atmos.height_scale x y).drop 1) with hnone | hnone <;>
    rcases h1 : interp1d tl ((r.atmos.height_scale x y).drop 1) (3/10) with _ | v1 <;>
    rcases h2 : interp1d tl ((r.atmos.height_scale x y).drop 1) 1 with _ | v2 <;>
    simp_all [List.mapM, List.mapM.loop]

/-- Witness for C10: a three-point column with constant chi `1` over heights
`[100, 50, 0]` has cumulative optical depths `[50, 100]`, whose first value
exceeds `0.3`, and the locator errors out. -/
theorem tau_out_of_bracket_errors_witness :
    List.Chain' (· ≤ ·)
      (cumtrapz ((constChiObj 1 100 3).ray.chi 0 0 0)
        (((constChiObj 1 100 3).atmos.height_scale 0 0).map (fun v => -v)))
    ∧ (3/10 < (cumtrapz ((constChiObj 1 100 3).ray.chi 0 0 0)
          (((constChiObj 1 100 3).atmos.height_scale 0 0).map (fun v => -v))).getD 0 0
        ∨ (cumtrapz ((constChiObj 1 100 3).ray.chi 0 0 0)
            (((constChiObj 1 100 3).atmos.height_scale 0 0).map (fun v => -v))).getLastD 0 < 3)
    ∧ SourceFunction.get_tau_levels (constChiObj 1 100 3) 0 0 0 = none := by
  have hc : cumtrapz ((constChiObj 1 100 3).ray.chi 0 0 0)
      (((constChiObj 1 100 3).atmos.height_scale 0 0).map (fun v => -v)) = [50, 100] := by
    norm_num [constChiObj, uniformGrid, List.range_succ, cumtrapz, cumtrapzAux]
  have h1 : List.Chain' (· ≤ ·)
      (cumtrapz ((constChiObj 1 100 3).ray.chi 0 0 0)
        (((constChiObj 1 100 3).atmos.height_scale 0 0).map (fun v => -v))) := by
    rw [hc]; norm_num [List.chain'_cons]
  have h2 : 3/10 < (cumtrapz ((constChiObj 1 100 3).ray.chi 0 0 0)
      (((constChiObj 1 100 3).atmos.height_scale 0 0).map (fun v => -v))).getD 0 0 := by
    rw [hc]; norm_num
  exact ⟨h1, Or.inl h2, tau_out_of_bracket_errors (constChiObj 1 100 3) 0 0 0 h1 (Or.inl h2)⟩

/-- Linear interpolation is exact on affine data: if the ordinates are
`a + b * x` then interpolating at any in-range `t` returns `a + b * t`. -/
theorem interpAsc_affine (a b : ℚ) :
    ∀ (xs : List ℚ) (t : ℚ), List.Chain' (· < ·) xs → 2 ≤ xs.length →
      xs.getD 0 0 ≤ t → t ≤ xs.getLastD 0 →
      interpAsc xs (xs.map (fun v => a + b * v)) t = some (a + b * t) := by
  intro xs
  induction xs with
  | nil => intro t _ hlen _ _; simp at hlen
  | cons x0 xs ih =>
    intro t hch hlen hlo hhi
    cases xs with
    | nil => simp at hlen
    | cons x1 rest =>
      rcases List.chain'_cons.1 hch with ⟨h01, hch'⟩
      rw [List.map_cons, List.map_cons, interpAsc]
      rw [if_neg (not_lt.2 (by simpa using hlo))]
      by_cases ht1 : t ≤ x1
      · rw [if_pos ht1]
        have hne : x1 - x0 ≠ 0 := sub_ne_zero.2 (ne_of_gt h01)
        congr 1
        field_simp
        ring
      · rw [if_neg ht1]
        cases rest with
        | nil =>
          exact absurd (by simpa [List.getLastD_cons] using hhi) ht1
        | cons x2 rest' =>
          exact ih t hch' (by simp) (by simpa using (not_le.1 ht1).le)
            (by simpa [List.getLastD_cons] using hhi)

/-- `roundHalfEven` is within a half of its argument. -/
theorem abs_sub_roundHalfEven (t : ℚ) : |t - (roundHalfEven t : ℚ)| ≤ 1/2 := by
  have h0 : ((⌊t⌋ : ℤ) : ℚ) ≤ t := Int.floor_le t
  have h1 : t < ⌊t⌋ + 1 := Int.lt_floor_add_one t
  unfold roundHalfEven
  split_ifs with hc1 hc2 hc3
  · rw [abs_of_nonneg (by linarith)]; linarith
  · rw [abs_of_nonpos (by push_cast; linarith)]; push_cast; linarith
  · rw [abs_of_nonneg (by linarith)]; linarith
  · rw [abs_of_nonpos (by push_cast; linarith)]; push_cast; linarith

/-- `roundHalfEven t` is a nearest integer to `t`. -/
theorem roundHalfEven_nearest (t : ℚ) (k : ℤ) :
    |t - (roundHalfEven t : ℚ)| ≤ |t - (k : ℚ)| := by
  by_cases hk : k = roundHalfEven t
  · rw [hk]
  · have hne : roundHalfEven t - k ≠ 0 := sub_ne_zero.2 (fun h => hk (by omega))
    have h1 : (1 : ℚ) ≤ |((roundHalfEven t : ℚ)) - (k : ℚ)| := by
      have := Int.one_le_abs hne
      calc (1 : ℚ) = ((1 : ℤ) : ℚ) := by norm_num
        _ ≤ ((|roundHalfEven t - k| : ℤ) : ℚ) := by exact_mod_cast this
        _ = |((roundHalfEven t : ℚ)) - (k : ℚ)| := by push_cast; rfl
    have h2 := abs_sub_roundHalfEven t
    have h3 : |((roundHalfEven t : ℚ)) - (k : ℚ)|
        ≤ |t - (roundHalfEven t : ℚ)| + |t - (k : ℚ)| := by
      calc |((roundHalfEven t : ℚ)) - (k : ℚ)|
          = |((roundHalfEven t : ℚ) - t) + (t - (k : ℚ))| := by ring_nf
        _ ≤ |(roundHalfEven t : ℚ) - t| + |t - (k : ℚ)| := abs_add _ _
        _ = |t - (roundHalfEven t : ℚ)| + |t - (k : ℚ)| := by rw [abs_sub_comm]
    linarith

/-- `roundHalfEven` respects integer bounds on its argument. -/
theorem roundHalfEven_mem (t : ℚ) (lo hi : ℤ) (hlo : (lo : ℚ) ≤ t)
    (hhi : t ≤ (hi : ℚ)) : lo ≤ roundHalfEven t ∧ roundHalfEven t ≤ hi := by
  have h := abs_le.1 (abs_sub_roundHalfEven t)
  constructor
  · have : (lo : ℚ) < (roundHalfEven t : ℚ) + 1 := by linarith
    exact_mod_cast Int.lt_add_one_iff.1 (by exact_mod_cast this)
  · have : (roundHalfEven t : ℚ) < (hi : ℚ) + 1 := by linarith
    exact_mod_cast Int.lt_add_one_iff.1 (by exact_mod_cast this)

/-- Cumulative trapezoids of a constant integrand are proportional to the
abscissa differences. -/
theorem cumtrapzAux_const (c : ℚ) :
    ∀ (xs : List ℚ) (x0 acc : ℚ),
      cumtrapzAux acc (List.replicate (xs.length + 1) c) (x0 :: xs)
        = xs.map (fun v => acc + c * (v - x0)) := by
  intro xs
  induction xs with
  | nil => intro x0 acc; rfl
  | cons x1 xs ih =>
    intro x0 acc
    have hrep : List.replicate ((x1 :: xs).length + 1) c
        = c :: c :: List.replicate xs.length c := by
      simp [List.replicate_succ]
    have hrep2 : (c :: List.replicate xs.length c)
        = List.replicate (xs.length + 1) c := by
      simp [List.replicate_succ]
    rw [hrep, cumtrapzAux, hrep2, ih]
    rw [List.map_cons]
    congr 1
    · ring
    · have : (fun v => acc + (x1 - x0) * (c + c) / 2 + c * (v - x1))
          = (fun v => acc + c * (v - x0)) := funext fun v => by ring
      rw [this]

/-- `getD` of a mapped range at an in-range index. -/
theorem range_map_getD (n : ℕ) (f : ℕ → ℚ) (i : ℕ) (h : i < n) :
    ((List.range n).map f).getD i 0 = f i := by
  rw [List.getD_eq_getElem?_getD, List.getElem?_map, List.getElem?_range h]
  rfl

/-- `getLastD` of a mapped nonempty range. -/
theorem range_map_getLastD (n : ℕ) (f : ℕ → ℚ) (h : 0 < n) :
    ((List.range n).map f).getLastD 0 = f (n - 1) := by
  cases n with
  | zero => omega
  | succ m =>
    rw [List.range_succ, List.map_append, List.map_cons, List.map_nil,
      List.getLastD_concat]
    simp

/-- A mapped range is `<`-chained when the function increases stepwise. -/
theorem chain_lt_range_map (n : ℕ) (f : ℕ → ℚ)
    (hf : ∀ m, m + 1 < n → f m < f (m + 1)) :
    List.Chain' (· < ·) ((List.range n).map f) := by
  rw [List.chain'_map]
  cases n with
  | zero => simp
  | succ m =>
    rw [List.chain'_range_succ]
    intro i hi
    exact hf i (by omega)

/-- Reversal of a mapped range flips the index. -/
theorem reverse_range_map {α : Type} (n : ℕ) (f : ℕ → α) :
    ((List.range n).map f).reverse = (List.range n).map (fun i => f (n - 1 - i)) := by
  rw [← List.map_reverse, List.range_eq_range', List.reverse_range',
    List.map_map, ← List.range_eq_range']
  refine List.map_congr_left (fun i hi => ?_)
  simp only [Function.comp_apply]
  congr 1
  omega

/-- The first two entries of a `(· ≤ ·)`-chained list are ordered. -/
theorem chain_le_getD01 (l : List ℚ) (hlen : 2 ≤ l.length)
    (hch : List.Chain' (· ≤ ·) l) : l.getD 0 0 ≤ l.getD 1 0 := by
  cases l with
  | nil => simp at hlen
  | cons a l' =>
    cases l' with
    | nil => simp at hlen
    | cons b l'' => simpa using (List.chain'_cons.1 hch).1

/-- `uniformGrid (M + 1) H` with the denominator cast normalised. -/
theorem uniformGrid_succ_eq (M : ℕ) (H : ℚ) :
    uniformGrid (M + 1) H
      = (List.range (M + 1)).map (fun (j : ℕ) => H - (j : ℚ) * H / (M : ℚ)) := by
  unfold uniformGrid
  refine List.map_congr_left (fun j _ => ?_)
  have hcast : ((M + 1 : ℕ) : ℚ) - 1 = (M : ℚ) := by push_cast; ring
  rw [hcast]

/-- The negated uniform grid in head-tail form. -/
theorem uniform_neg_grid (M : ℕ) (H : ℚ) :
    (uniformGrid (M + 1) H).map (fun v => -v)
      = (-(H - (0 : ℚ) * H / (M : ℚ)))
          :: (List.range M).map (fun (j : ℕ) => -(H - ((j : ℚ) + 1) * H / (M : ℚ))) := by
  rw [uniformGrid_succ_eq, List.range_succ_eq_map]
  simp only [List.map_cons, List.map_map, Nat.cast_zero]
  congr 1
  refine List.map_congr_left (fun j _ => ?_)
  simp only [Function.comp_apply]
  push_cast
  ring_nf

/-- The cumulative optical depths of constant chi `c` over the uniform grid:
value `j` is `c * (j + 1) * H / M`. -/
theorem uniform_tau (c H : ℚ) (M : ℕ) :
    cumtrapz (List.replicate (M + 1) c) ((uniformGrid (M + 1) H).map (fun v => -v))
      = (List.range M).map (fun (j : ℕ) => c * ((j : ℚ) + 1) * H / (M : ℚ)) := by
  rw [uniform_neg_grid, cumtrapz]
  have hrep : List.replicate (M + 1) c
      = List.replicate
          (((List.range M).map (fun (j : ℕ) => -(H - ((j : ℚ) + 1) * H / (M : ℚ)))).length + 1)
          c := by simp
  rw [hrep, cumtrapzAux_const, List.map_map]
  refine List.map_congr_left (fun j _ => ?_)
  simp only [Function.comp_apply]
  ring

/-- The innermost cumulative optical depth over the uniform grid is `c * H`. -/
theorem uniform_tau_getLastD (c H : ℚ) (M : ℕ) (hM : 0 < M) :
    ((List.range M).map (fun (j : ℕ) => c * ((j : ℚ) + 1) * H / (M : ℚ))).getLastD 0
      = c * H := by
  rw [range_map_getLastD _ _ hM]
  have hM1 : (1 : ℕ) ≤ M := hM
  have hcast : ((M - 1 : ℕ) : ℚ) + 1 = (M : ℚ) := by
    push_cast [Nat.cast_sub hM1]
    ring
  rw [hcast]
  have hMQ : ((M : ℚ)) ≠ 0 := by exact_mod_cast hM.ne'
  field_simp
  ring

/-- The uniform grid without its outermost point, written as the affine image
`h = H - tau / c` of the cumulative optical depths. -/
theorem uniform_drop_one (c H : ℚ) (M : ℕ) (hc : c ≠ 0) (hM : (M : ℚ) ≠ 0) :
    (uniformGrid (M + 1) H).drop 1
      = ((List.range M).map (fun (j : ℕ) => c * ((j : ℚ) + 1) * H / (M : ℚ))).map
          (fun v => H + (-(1/c)) * v) := by
  rw [uniformGrid_succ_eq, List.range_succ_eq_map, List.map_cons,
    List.drop_succ_cons, List.drop_zero, List.map_map, List.map_map]
  refine List.map_congr_left (fun j _ => ?_)
  simp only [Function.comp_apply]
  push_cast
  field_simp
  ring

/-- The cumulative optical depths over the uniform grid are strictly
increasing. -/
theorem uniform_tau_chain (c H : ℚ) (M : ℕ) (hc : 0 < c) (hH : 0 < H)
    (hM : 0 < M) :
    List.Chain' (· < ·)
      ((List.range M).map (fun (j : ℕ) => c * ((j : ℚ) + 1) * H / (M : ℚ))) := by
  refine chain_lt_range_map M _ (fun m _ => ?_)
  have hMQ : (0 : ℚ) < M := by exact_mod_cast hM
  have h1 : c * ((m : ℚ) + 1) * H < c * (((m + 1 : ℕ) : ℚ) + 1) * H := by
    push_cast
    nlinarith
  exact div_lt_div_of_pos_right h1 hMQ

/-- First interpolation stage at the uniform object: in-range levels resolve
to the affine crossing height `H - tau / c`. -/
theorem uniform_first_interp (c H : ℚ) (M : ℕ) (hc : 0 < c) (hH : 0 < H)
    (hM : 2 ≤ M) (t : ℚ) (htlo : c * H / (M : ℚ) ≤ t) (hthi : t ≤ c * H) :
    interp1d ((List.range M).map (fun (j : ℕ) => c * ((j : ℚ) + 1) * H / (M : ℚ)))
        ((uniformGrid (M + 1) H).drop 1) t = some (H + (-(1/c)) * t) := by
  have hM0 : 0 < M := by omega
  have hMQ : ((M : ℚ)) ≠ 0 := by
    have : (0 : ℚ) < M := by exact_mod_cast hM0
    exact this.ne'
  have hch := uniform_tau_chain c H M hc hH hM0
  rw [interp1d, if_pos ((sortedLe_iff_chain _).2 (hch.imp (fun _ _ h => le_of_lt h)))]
  rw [uniform_drop_one c H M hc.ne' hMQ]
  refine interpAsc_affine H (-(1/c)) _ t hch (by simpa using hM) ?_ ?_
  · rw [range_map_getD M _ 0 hM0]
    calc c * ((0 : ℚ) + 1) * H / (M : ℚ) = c * H / M := by ring
      _ ≤ t := htlo
  · rw [uniform_tau_getLastD c H M hM0]
    exact hthi

/-- The uniform grid is not sorted ascending (it decreases). -/
theorem uniformGrid_not_sorted (M : ℕ) (H : ℚ) (hM : 2 ≤ M) (hH : 0 < H) :
    sortedLe (uniformGrid (M + 1) H) = false := by
  have hM0 : 0 < M := by omega
  have hMQ : (0 : ℚ) < M := by exact_mod_cast hM0
  rw [Bool.eq_false_iff]
  intro hT
  have hch := (sortedLe_iff_chain _).1 hT
  have hlen : 2 ≤ (uniformGrid (M + 1) H).length := by
    simp only [uniformGrid, List.length_map, List.length_range]
    omega
  have h01 := chain_le_getD01 _ hlen hch
  rw [uniformGrid_succ_eq,
    range_map_getD (M + 1) _ 0 (by omega), range_map_getD (M + 1) _ 1 (by omega)] at h01
  have hpos : (0 : ℚ) < H / M := div_pos hH hMQ
  push_cast at h01
  rw [zero_mul, zero_div, one_mul, sub_zero] at h01
  linarith

/-- Reversing the uniform grid yields the ascending affine grid `i * H / M`. -/
theorem uniform_rev_grid (M : ℕ) (H : ℚ) (hM : (M : ℚ) ≠ 0) :
    (uniformGrid (M + 1) H).reverse
      = (List.range (M + 1)).map (fun (i : ℕ) => (i : ℚ) * H / (M : ℚ)) := by
  rw [uniformGrid_succ_eq, reverse_range_map]
  refine List.map_congr_left (fun i hi => ?_)
  have hi' : i ≤ M := Nat.lt_succ_iff.1 (List.mem_range.1 hi)
  have hcast : ((M + 1 - 1 - i : ℕ) : ℚ) = (M : ℚ) - i := by
    have h : M + 1 - 1 - i = M - i := by omega
    rw [h, Nat.cast_sub hi']
  rw [hcast]
  field_simp
  ring

/-- Reversing the index array writes it as an affine image of the reversed
grid. -/
theorem uniform_rev_idx (M : ℕ) (H : ℚ) (hM : (M : ℚ) ≠ 0) (hH : H ≠ 0) :
    ((List.range (M + 1)).map (fun (i : ℕ) => (i : ℚ))).reverse
      = ((List.range (M + 1)).map (fun (i : ℕ) => (i : ℚ) * H / (M : ℚ))).map
          (fun v => (M : ℚ) + (-((M : ℚ) / H)) * v) := by
  rw [reverse_range_map, List.map_map]
  refine List.map_congr_left (fun i hi => ?_)
  simp only [Function.comp_apply]
  have hi' : i ≤ M := Nat.lt_succ_iff.1 (List.mem_range.1 hi)
  have hcast : ((M + 1 - 1 - i : ℕ) : ℚ) = (M : ℚ) - i := by
    have h : M + 1 - 1 - i = M - i := by omega
    rw [h, Nat.cast_sub hi']
  rw [hcast]
  field_simp
  ring

/-- The reversed uniform grid is strictly increasing. -/
theorem uniform_idx_chain (M : ℕ) (H : ℚ) (hH : 0 < H) (hM : 0 < M) :
    List.Chain' (· < ·)
      ((List.range (M + 1)).map (fun (i : ℕ) => (i : ℚ) * H / (M : ℚ))) := by
  refine chain_lt_range_map _ _ (fun m _ => ?_)
  have hMQ : (0 : ℚ) < M := by exact_mod_cast hM
  have h1 : (m : ℚ) * H < ((m + 1 : ℕ) : ℚ) * H := by
    push_cast
    nlinarith
  exact div_lt_div_of_pos_right h1 hMQ

/-- Second interpolation stage at the uniform object: crossing height
`H - tau / c` resolves to the fractional index `tau * M / (c * H)`. -/
theorem uniform_second_interp (c H : ℚ) (M : ℕ) (hc : 0 < c) (hH : 0 < H)
    (hM : 2 ≤ M) (t : ℚ) (ht0 : 0 < t) (hthi : t ≤ c * H) :
    interp1d (uniformGrid (M + 1) H)
        ((List.range (uniformGrid (M + 1) H).length).map (fun (i : ℕ) => (i : ℚ)))
        (H + (-(1/c)) * t)
      = some (t * (M : ℚ) / (c * H)) := by
  have hM0 : 0 < M := by omega
  have hMQ0 : (0 : ℚ) < M := by exact_mod_cast hM0
  have hMQ : ((M : ℚ)) ≠ 0 := hMQ0.ne'
  have hlen : (uniformGrid (M + 1) H).length = M + 1 := by simp [uniformGrid]
  rw [interp1d, uniformGrid_not_sorted M H hM hH, hlen]
  rw [if_neg (by simp)]
  rw [uniform_rev_grid M H hMQ, uniform_rev_idx M H hMQ hH.ne']
  have hquot : t / c ≤ H := by
    rw [div_le_iff₀ hc]
    linarith
  have hquot0 : 0 < t / c := div_pos ht0 hc
  calc interpAsc ((List.range (M + 1)).map (fun (i : ℕ) => (i : ℚ) * H / (M : ℚ)))
        (((List.range (M + 1)).map (fun (i : ℕ) => (i : ℚ) * H / (M : ℚ))).map
          (fun v => (M : ℚ) + (-((M : ℚ) / H)) * v))
        (H + (-(1/c)) * t)
      = some ((M : ℚ) + (-((M : ℚ) / H)) * (H + (-(1/c)) * t)) := by
        refine interpAsc_affine _ _ _ _ (uniform_idx_chain M H hH hM0)
          (by simp only [List.length_map, List.length_range]; omega) ?_ ?_
        · rw [range_map_getD (M + 1) _ 0 (by omega)]
          have h0 : ((0 : ℕ) : ℚ) * H / (M : ℚ) = 0 := by push_cast; ring
          rw [h0]
          have ht : H + (-(1/c)) * t = H - t / c := by ring
          rw [ht]
          linarith
        · rw [range_map_getLastD (M + 1) _ (by omega)]
          have h1 : ((M + 1 - 1 : ℕ) : ℚ) * H / (M : ℚ) = H := by
            have : M + 1 - 1 = M := by omega
            rw [this]
            field_simp
          rw [h1]
          have ht : H + (-(1/c)) * t = H - t / c := by ring
          rw [ht]
          linarith
    _ = some (t * (M : ℚ) / (c * H)) := by
        congr 1
        field_simp
        ring

/-- Rounding the fractional index `tau * M / (c * H)` yields a nearest grid
index to the crossing height `H * (1 - tau / (c * H))` on the uniform grid
of `M + 1` points. -/
theorem isNearest_roundHalfEven (c H : ℚ) (M : ℕ) (hc : 0 < c) (hH : 0 < H)
    (hM : 0 < M) (t : ℚ) (htlo : c * H / (M : ℚ) ≤ t) (hthi : t ≤ c * H) :
    isNearest (M + 1) H (H * (1 - t / (c * H)))
      (roundHalfEven (t * (M : ℚ) / (c * H))) := by
  have hcH : (0 : ℚ) < c * H := mul_pos hc hH
  have hMQ : (0 : ℚ) < M := by exact_mod_cast hM
  set s := t * (M : ℚ) / (c * H) with hs
  have hs1 : (1 : ℚ) ≤ s := by
    rw [hs, le_div_iff₀ hcH, one_mul]
    rw [div_le_iff₀ hMQ] at htlo
    linarith
  have hsM : s ≤ (M : ℚ) := by
    rw [hs, div_le_iff₀ hcH]
    nlinarith
  obtain ⟨hj1, hjM⟩ := roundHalfEven_mem s 1 M (by exact_mod_cast hs1)
    (by exact_mod_cast hsM)
  set j := roundHalfEven s with hjdef
  have hjQ1 : (1 : ℚ) ≤ (j : ℚ) := by exact_mod_cast hj1
  have hjQM : (j : ℚ) ≤ (M : ℚ) := by exact_mod_cast hjM
  have hcast : (((M + 1 : ℕ)) : ℚ) - 1 = (M : ℚ) := by push_cast; ring
  have key : ∀ u : ℚ, H - u * H / (M : ℚ) - H * (1 - t / (c * H))
      = (H / (M : ℚ)) * (s - u) := by
    intro u
    rw [hs]
    field_simp
    ring
  unfold isNearest
  refine ⟨by omega, by push_cast; omega, ?_⟩
  intro k _
  rw [hcast, key ((j : ℚ)), key ((k : ℚ))]
  rw [abs_mul, abs_mul, abs_of_pos (div_pos hH hMQ)]
  refine mul_le_mul_of_nonneg_left ?_ (le_of_lt (div_pos hH hMQ))
  have hkc : (((k : ℤ)) : ℚ) = (k : ℚ) := by push_cast; ring
  calc |s - (j : ℚ)| ≤ |s - (((k : ℤ)) : ℚ)| := roundHalfEven_nearest s (k : ℤ)
    _ = |s - (k : ℚ)| := by rw [hkc]

/-- C4 (amended): over a uniform `N`-point grid (`N ≥ 3`) spanning heights
`H` down to `0` with constant chi `c > 0`, the innermost computed cumulative
optical depth is exactly `c * H`; and provided all three reference levels lie
in the computed cumulative range (`c*H/(N-1) ≤ 0.3` and `3 ≤ c*H`), the
locator succeeds and each returned index is a nearest grid index to the
crossing height `H * (1 - tau/(c*H))`. -/
theorem uniform_chi_tau_levels (c H : ℚ) (N : ℕ) (hc : 0 < c) (hH : 0 < H)
    (hN : 3 ≤ N) (hlo : c * H / ((N : ℚ) - 1) ≤ 3/10) (hhi : 3 ≤ c * H) :
    (cumtrapz ((constChiObj c H N).ray.chi 0 0 0)
        (((constChiObj c H N).atmos.height_scale 0 0).map (fun v => -v))).getLastD 0
      = c * H
    ∧ ∃ tv idx, SourceFunction.get_tau_levels (constChiObj c H N) 0 0 0 = some (tv, idx)
        ∧ idx.length = 3
        ∧ ∀ i : Fin 3, isNearest N H
            (H * (1 - SourceFunction.TAU_LEVELS.getD i 0 / (c * H)))
            (idx.getD i 0) := by
  obtain ⟨M, rfl⟩ : ∃ M, N = M + 1 := ⟨N - 1, by omega⟩
  have hM : 2 ≤ M := by omega
  have hM0 : 0 < M := by omega
  have hcastN : ((M + 1 : ℕ) : ℚ) - 1 = (M : ℚ) := by push_cast; ring
  rw [hcastN] at hlo
  have hchi : (constChiObj c H (M + 1)).ray.chi 0 0 0 = List.replicate (M + 1) c := rfl
  have hh : (constChiObj c H (M + 1)).atmos.height_scale 0 0 = uniformGrid (M + 1) H := rfl
  have htau := uniform_tau c H M
  constructor
  · rw [hchi, hh, htau, uniform_tau_getLastD c H M hM0]
  · have hlo1 : c * H / (M : ℚ) ≤ 1 := le_trans hlo (by norm_num)
    have hlo3 : c * H / (M : ℚ) ≤ 3 := le_trans hlo (by norm_num)
    have hhi03 : (3 : ℚ)/10 ≤ c * H := le_trans (by norm_num) hhi
    have hhi1 : (1 : ℚ) ≤ c * H := le_trans (by norm_num) hhi
    have hF03 := uniform_first_interp c H M hc hH hM (3/10) hlo hhi03
    have hF1 := uniform_first_interp c H M hc hH hM 1 hlo1 hhi1
    have hF3 := uniform_first_interp c H M hc hH hM 3 hlo3 hhi
    have hG03 := uniform_second_interp c H M hc hH hM (3/10) (by norm_num) hhi03
    have hG1 := uniform_second_interp c H M hc hH hM 1 (by norm_num) hhi1
    have hG3 := uniform_second_interp c H M hc hH hM 3 (by norm_num) hhi
    refine ⟨[(H + (-(1/c)) * (3/10)) / 1000000, (H + (-(1/c)) * 1) / 1000000,
             (H + (-(1/c)) * 3) / 1000000],
            [roundHalfEven (3/10 * (M : ℚ) / (c * H)),
             roundHalfEven (1 * (M : ℚ) / (c * H)),
             roundHalfEven (3 * (M : ℚ) / (c * H))], ?_, rfl, ?_⟩
    · simp only [SourceFunction.get_tau_levels, SourceFunction.TAU_LEVELS,
        hchi, hh, htau, List.mapM_cons, List.mapM_nil, hF03, hF1, hF3,
        Option.some_bind, Option.pure_def, Option.bind_eq_bind, hG03, hG1, hG3,
        List.map_cons, List.map_nil]
    · intro i
      fin_cases i <;>
        simp only [SourceFunction.TAU_LEVELS, List.getD_cons_zero, List.getD_cons_succ,
          Fin.isValue]
      · exact isNearest_roundHalfEven c H M hc hH hM0 (3/10) hlo hhi03
      · exact isNearest_roundHalfEven c H M hc hH hM0 1 hlo1 hhi1
      · exact isNearest_roundHalfEven c H M hc hH hM0 3 hlo3 hhi

/-- Counterexample to C4 as stated: with `c = 1`, `H = 100`, `N = 3` the
reference level `tau = 0.3` satisfies `tau ≤ c * H`, yet the locator returns
no index at all — the first computed cumulative value is `50 > 0.3` and the
inversion step raises an out-of-bounds interpolation error. -/
theorem uniform_chi_tau_levels_counterexample :
    SourceFunction.get_tau_levels (constChiObj 1 100 3) 0 0 0 = none := by
  norm_num [SourceFunction.get_tau_levels, SourceFunction.TAU_LEVELS, constChiObj,
    uniformGrid, List.range_succ, cumtrapz, cumtrapzAux, interp1d, interpAsc,
    sortedLe, List.mapM, List.mapM.loop]

/-- Witness for C4 (amended) at `c = 1`, `H = 3`, `N = 11`. -/
theorem uniform_chi_tau_levels_witness :
    ((0 : ℚ) < 1 ∧ (0 : ℚ) < 3 ∧ 3 ≤ 11
      ∧ (1 : ℚ) * 3 / (((11 : ℕ) : ℚ) - 1) ≤ 3/10 ∧ (3 : ℚ) ≤ 1 * 3)
    ∧ ((cumtrapz ((constChiObj 1 3 11).ray.chi 0 0 0)
          (((constChiObj 1 3 11).atmos.height_scale 0 0).map (fun v => -v))).getLastD 0
        = 1 * 3
      ∧ ∃ tv idx, SourceFunction.get_tau_levels (constChiObj 1 3 11) 0 0 0
            = some (tv, idx)
          ∧ idx.length = 3
          ∧ ∀ i : Fin 3, isNearest 11 3
              (3 * (1 - SourceFunction.TAU_LEVELS.getD i 0 / (1 * 3)))
              (idx.getD i 0)) :=
  ⟨⟨by norm_num, by norm_num, by norm_num, by norm_num, by norm_num⟩,
    uniform_chi_tau_levels 1 3 11 (by norm_num) (by norm_num) (by norm_num)
      (by norm_num) (by norm_num)⟩
